import Mathlib

/-!
Verification development for the blog application's data-and-query layer:
the in-memory entity store (`MemStorage` in `storage.ts`), the external
content mapper (`mapExternalPostToSchema`, `fetchExternalPosts`,
`fetchExternalPostsByCategory`, `searchExternalPosts`), and the client-side
aggregation/filter/sort pipeline (`HomePage`).

Conventions of the shallow embedding:
* JavaScript `Map<number, T>` is modelled as an association list
  `List (Nat × T)` with `Map.set` / `Map.get` / `Map.delete` semantics
  (in-place replacement on an existing key, append on a fresh key).
* Timestamps (`Date`) are modelled as `Nat` (`getTime()` values); every
  operation that reads the clock takes the current time as a parameter.
* JS strings are Lean `String`s; `toLowerCase`, `includes` and
  `localeCompare` are modelled by executable character-list functions
  below.
* `fetch` is modelled by passing the outcome of the network request as an
  explicit argument (`FetchOutcome`).
-/

/-! ## JavaScript string primitives -/

/-- Model of `String.prototype.toLowerCase()`: character-wise lowercasing. -/
def jsToLower (s : String) : String := ⟨s.data.map Char.toLower⟩

/-- Auxiliary for `includes`: does `pat` occur at the head of `l`? -/
def headOccurs : List Char → List Char → Bool
  | [], _ => true
  | _ :: _, [] => false
  | a :: as, b :: bs => decide (a = b) && headOccurs as bs

/-- Does `pat` occur contiguously anywhere in `l`? -/
def containsSub : List Char → List Char → Bool
  | [], pat => pat.isEmpty
  | l@(_ :: t), pat => headOccurs pat l || containsSub t pat

/-- Model of `s.includes(pat)` for JS strings. -/
def jsIncludes (s pat : String) : Bool := containsSub s.data pat.data

/-- Lexicographic comparison of character lists by code point; models the
total order that `localeCompare` induces on strings (`≤ 0` side). -/
def lexLeCh : List Char → List Char → Bool
  | [], _ => true
  | _ :: _, [] => false
  | a :: as, b :: bs => if a = b then lexLeCh as bs else decide (a.toNat < b.toNat)

/-! ## Data model, from the drizzle schema (`shared/schema.ts`).
Nullable columns are `Option`s; `$inferSelect` of `posts` gives
`createdAt : Date | null`, hence `Option Nat` here. -/

/-- Row type of the `users` table. -/
structure User where
  id : Nat
  username : String
  password : String
  fullName : Option String
  isAdmin : Option Bool
deriving DecidableEq

/-- `InsertUser = z.infer<typeof insertUserSchema>`: the schema picks
`username`, `password`, `fullName` only. -/
structure InsertUser where
  username : String
  password : String
  fullName : Option String
deriving DecidableEq

/-- Row type of the `posts` table. -/
structure Post where
  id : Nat
  title : String
  content : String
  imageUrl : Option String
  category : Option String
  tags : Option String
  createdAt : Option Nat
  authorId : Option Nat
  published : Option Bool
deriving DecidableEq

/-- `InsertPost = z.infer<typeof insertPostSchema>`: the schema picks
`title`, `content`, `imageUrl`, `category`, `tags`, `authorId`,
`published` — neither `id` nor `createdAt` is part of the insert type. -/
structure InsertPost where
  title : String
  content : String
  imageUrl : Option String
  category : Option String
  tags : Option String
  authorId : Option Nat
  published : Option Bool
deriving DecidableEq

/-- `Partial<InsertPost>`: every key of `InsertPost` may be absent.  The
outer `Option` is key presence; for nullable columns the inner `Option` is
the stored nullable value. -/
structure PostUpdate where
  title : Option String := none
  content : Option String := none
  imageUrl : Option (Option String) := none
  category : Option (Option String) := none
  tags : Option (Option String) := none
  authorId : Option (Option Nat) := none
  published : Option (Option Bool) := none
deriving DecidableEq

/-! ## JS `Map<number, T>` model -/

/-- `Map.prototype.get`. -/
def mapGet {α : Type} : List (Nat × α) → Nat → Option α
  | [], _ => none
  | e :: t, k => if e.1 = k then some e.2 else mapGet t k

/-- `Map.prototype.set`: replace in place if the key exists, else append. -/
def mapSet {α : Type} : List (Nat × α) → Nat → α → List (Nat × α)
  | [], k, v => [(k, v)]
  | e :: t, k, v => if e.1 = k then (k, v) :: t else e :: mapSet t k v

/-- `Map.prototype.delete` (the list part; the returned `Bool` is computed
separately from the pre-state). -/
def mapDelete {α : Type} : List (Nat × α) → Nat → List (Nat × α)
  | [], _ => []
  | e :: t, k => if e.1 = k then t else e :: mapDelete t k

/-! ## MemStorage: user operations -/

/-- The `users` map together with `currentUserId`. -/
structure UserStore where
  users : List (Nat × User)
  currentUserId : Nat
deriving DecidableEq

/-- Store state built by the `MemStorage` constructor: the seeded admin
account and `currentUserId = 2`. -/
def initialUserStore : UserStore :=
  { users := [(1, { id := 1, username := "admin", password := "admin",
                    fullName := some "Admin User", isAdmin := some true })],
    currentUserId := 2 }

/-- `MemStorage.createUser`: `{ ...insertUser, id, isAdmin: false }` with
`id = this.currentUserId++`; no duplicate-username check is performed. -/
def createUser (st : UserStore) (ins : InsertUser) : User × UserStore :=
  let i := st.currentUserId
  let u : User := { id := i, username := ins.username, password := ins.password,
                    fullName := ins.fullName, isAdmin := some false }
  (u, { users := mapSet st.users i u, currentUserId := i + 1 })

/-- `MemStorage.getUserByUsername`. -/
def getUserByUsername (st : UserStore) (name : String) : Option User :=
  (st.users.map Prod.snd).find? (fun u => u.username = name)

/-- `MemStorage.getAllUsers`. -/
def getAllUsers (st : UserStore) : List User := st.users.map Prod.snd

/-! ## MemStorage: post operations -/

/-- The `posts` map together with `currentPostId`. -/
structure PostStore where
  posts : List (Nat × Post)
  currentPostId : Nat
deriving DecidableEq

/-- Post-store state at construction time: empty map, counter 1. -/
def emptyPostStore : PostStore := { posts := [], currentPostId := 1 }

/-- The record built by `createPost`: `{ ...insertPost, id, createdAt: now }`. -/
def mkPost (i : Nat) (ins : InsertPost) (now : Nat) : Post :=
  { id := i, title := ins.title, content := ins.content,
    imageUrl := ins.imageUrl, category := ins.category, tags := ins.tags,
    createdAt := some now, authorId := ins.authorId, published := ins.published }

/-- `MemStorage.createPost`. -/
def createPost (st : PostStore) (ins : InsertPost) (now : Nat) : Post × PostStore :=
  let i := st.currentPostId
  let p := mkPost i ins now
  (p, { posts := mapSet st.posts i p, currentPostId := i + 1 })

/-- The shallow merge `{ ...post, ...postUpdate }` for
`postUpdate : Partial<InsertPost>`: keys present in the update overwrite,
absent keys keep the previous value; `id` and `createdAt` are not keys of
`Partial<InsertPost>` and are copied from `post`. -/
def mergePost (p : Post) (u : PostUpdate) : Post :=
  { p with
    title := u.title.getD p.title
    content := u.content.getD p.content
    imageUrl := u.imageUrl.getD p.imageUrl
    category := u.category.getD p.category
    tags := u.tags.getD p.tags
    authorId := u.authorId.getD p.authorId
    published := u.published.getD p.published }

/-- `MemStorage.updatePost`. -/
def updatePost (st : PostStore) (i : Nat) (u : PostUpdate) : Option Post × PostStore :=
  match mapGet st.posts i with
  | none => (none, st)
  | some p =>
    let p' := mergePost p u
    (some p', { st with posts := mapSet st.posts i p' })

/-- `MemStorage.deletePost`. -/
def deletePost (st : PostStore) (i : Nat) : Bool × PostStore :=
  ((mapGet st.posts i).isSome, { st with posts := mapDelete st.posts i })

/-- `MemStorage.getPost`. -/
def getPost (st : PostStore) (i : Nat) : Option Post := mapGet st.posts i

/-- `MemStorage.getAllPosts`: `Array.from(this.posts.values())`. -/
def getAllPosts (st : PostStore) : List Post := st.posts.map Prod.snd

/-- `MemStorage.searchPosts`. -/
def searchPosts (st : PostStore) (query : String) : List Post :=
  let lowerQuery := jsToLower query
  (st.posts.map Prod.snd).filter (fun p =>
    jsIncludes (jsToLower p.title) lowerQuery ||
    jsIncludes (jsToLower p.content) lowerQuery ||
    (match p.tags with
     | some t => jsIncludes (jsToLower t) lowerQuery
     | none => false))

/-! ## Sequences of post operations -/

/-- One invocation of a mutating post operation of `MemStorage`.  A
`create` carries the clock value observed by `new Date()`. -/
inductive PostOp where
  | create (ins : InsertPost) (now : Nat)
  | update (i : Nat) (u : PostUpdate)
  | delete (i : Nat)
deriving DecidableEq

/-- State transition of one operation (its returned value discarded). -/
def applyPostOp (st : PostStore) : PostOp → PostStore
  | .create ins now => (createPost st ins now).2
  | .update i u => (updatePost st i u).2
  | .delete i => (deletePost st i).2

/-- Run a sequence of operations left to right. -/
def runPostOps (st : PostStore) (ops : List PostOp) : PostStore :=
  ops.foldl applyPostOp st

/-- Specification-side account of the history of one id `i`, written from
the claim: a post comes into existence as the created record, each
subsequent update to it shallow-merges onto it in order, and a delete
removes it; ids are handed out sequentially starting at `cnt`.  The
accumulator `v` is the current record of `i` (`none` when `i` does not
exist). -/
def specPostAt (i : Nat) : List PostOp → Nat → Option Post → Option Post
  | [], _, v => v
  | .create ins now :: rest, cnt, v =>
      specPostAt i rest (cnt + 1) (if i = cnt then some (mkPost cnt ins now) else v)
  | .update j u :: rest, cnt, v =>
      specPostAt i rest cnt (if i = j then v.map (fun q => mergePost q u) else v)
  | .delete j :: rest, cnt, v =>
      specPostAt i rest cnt (if i = j then none else v)

/-! ## External content mapper (`client/src/lib/external-posts.ts`) -/

/-- Shape of one post of the external API. -/
structure ExternalBlogPost where
  id : Nat
  title : String
  body : String
  userId : Nat
  tags : List String
  reactions : Nat
deriving DecidableEq

/-- Shape of the external API response. -/
structure ExternalApiResponse where
  posts : List ExternalBlogPost
  total : Nat
  skip : Nat
  limit : Nat
deriving DecidableEq

/-- Outcome of one `fetch` of the external API: the request may fail at the
network level, or produce a response with an `ok` flag whose body then
parses (`.json()`) or not. -/
inductive FetchOutcome where
  | netError (msg : String)
  | response (ok : Bool) (body : Except String ExternalApiResponse)

/-- The `try` block up to and including `await response.json()`: a network
error propagates, a non-`ok` response throws, otherwise the parse result is
returned. -/
def runFetchPosts (o : FetchOutcome) : Except String ExternalApiResponse :=
  match o with
  | .netError msg => .error msg
  | .response ok body => if ok then body else .error "Failed to fetch posts from external API"

/-- JS `x || d` for strings: the default replaces both `undefined` (empty
tag list) and the falsy empty string. -/
def jsOrElse (s d : String) : String := if s = "" then d else s

/-- `mapExternalPostToSchema`; `now` is the clock value of `new Date()`. -/
def mapExternalPostToSchema (post : ExternalBlogPost) (now : Nat) : Post :=
  { id := post.id,
    title := post.title,
    content := post.body,
    authorId := some post.userId,
    category := some (jsOrElse (post.tags.headD "") "Uncategorized"),
    tags := some (String.intercalate "," post.tags),
    imageUrl := some ("https://picsum.photos/seed/" ++ toString post.id ++ "/800/500"),
    createdAt := some now,
    published := some true }

/-- `fetchExternalPosts(limit, skip)`: maps the fetched posts, and any
caught failure collapses to `[]`. -/
def fetchExternalPosts (o : FetchOutcome) (now : Nat) : List Post :=
  match runFetchPosts o with
  | .error _ => []
  | .ok data => data.posts.map (fun p => mapExternalPostToSchema p now)

/-- The categories given tag-keyword and content-keyword dictionaries. -/
def keywordCategoryList : List String := ["technology", "travel", "food", "lifestyle", "health"]

/-- The `categoryToTags` record of the keyword branch. -/
def categoryToTags (c : String) : Option (List String) :=
  if c = "technology" then some ["tech", "digital", "programming", "computer", "technology", "software", "hardware", "app", "innovation"]
  else if c = "travel" then some ["travel", "trip", "adventure", "vacation", "journey", "tourism", "destination", "explore", "world"]
  else if c = "food" then some ["food", "cooking", "recipe", "cuisine", "meal", "restaurant", "dinner", "lunch", "breakfast", "eat"]
  else if c = "lifestyle" then some ["lifestyle", "life", "living", "family", "home", "personal", "style", "trends", "fashion"]
  else if c = "health" then some ["health", "fitness", "wellness", "exercise", "medical", "nutrition", "workout", "diet", "mental"]
  else none

/-- The `categoryKeywords` record of the keyword branch. -/
def categoryKeywords (c : String) : Option (List String) :=
  if c = "technology" then some ["new", "digital", "future", "smart", "device", "online", "virtual", "product"]
  else if c = "travel" then some ["visit", "place", "country", "hotel", "experience", "flight", "tour", "holiday"]
  else if c = "food" then some ["delicious", "tasty", "recipe", "cook", "restaurant", "chef", "ingredients", "flavor"]
  else if c = "lifestyle" then some ["trend", "modern", "style", "design", "fashion", "home", "decoration", "living"]
  else if c = "health" then some ["healthy", "exercise", "fitness", "diet", "nutrition", "weight", "wellness", "body"]
  else none

/-- The `categoryToTags` record of the fallback branch. -/
def fallbackCategoryToTags (c : String) : Option (List String) :=
  if c = "writing" then some ["writing", "writer", "blog", "content", "author", "blogging", "story", "fiction"]
  else none

/-- `post.tags.some(tag => matchingTags.some(matchTag => tag.toLowerCase().includes(matchTag)))`. -/
def tagMatch (matchingTags : List String) (post : ExternalBlogPost) : Bool :=
  post.tags.any (fun tag => matchingTags.any (fun m => jsIncludes (jsToLower tag) m))

/-- `matchingKeywords.some(keyword => post.title.toLowerCase().includes(keyword) || post.body.toLowerCase().includes(keyword))`. -/
def contentMatch (matchingKeywords : List String) (post : ExternalBlogPost) : Bool :=
  matchingKeywords.any (fun k =>
    jsIncludes (jsToLower post.title) k || jsIncludes (jsToLower post.body) k)

/-- Tag rewrite applied to each qualifying post of the keyword branch: the
category becomes the first tag and its duplicates are dropped. -/
def retagQualifying (c : String) (post : ExternalBlogPost) : ExternalBlogPost :=
  { post with tags := c :: post.tags.filter (fun tag => jsToLower tag ≠ c) }

/-- Final mapping of both branches: map to the schema, then force
`mappedPost.category = category.toLowerCase()`. -/
def mapForced (c : String) (now : Nat) (post : ExternalBlogPost) : Post :=
  { mapExternalPostToSchema post now with category := some c }

/-- `fetchExternalPostsByCategory(category)`.  The single `fetch` outcome
models whichever request the taken branch performs.  In the padding step of
the keyword branch, `data.posts.filter(post => !filteredPosts.includes(post))`
keeps every source post: `includes` is reference equality and
`filteredPosts` holds freshly allocated objects produced by `.map`, so the
test is always false. -/
def fetchExternalPostsByCategory (category : String) (o : FetchOutcome) (now : Nat) : List Post :=
  match runFetchPosts o with
  | .error _ => []
  | .ok data =>
    if category = "all" then fetchExternalPosts (.response true (.ok data)) now
    else if jsToLower category ∈ keywordCategoryList then
      let matchingTags := (categoryToTags (jsToLower category)).getD [jsToLower category]
      let matchingKeywords := (categoryKeywords (jsToLower category)).getD []
      let filteredPosts := (data.posts.filter (fun post =>
        tagMatch matchingTags post || contentMatch matchingKeywords post)).map
          (retagQualifying (jsToLower category))
      let filteredPosts :=
        if filteredPosts.length < 5 then
          let additionalPosts := (data.posts.take (10 - filteredPosts.length)).map
            (fun post => { post with tags := jsToLower category :: post.tags })
          filteredPosts ++ additionalPosts
        else filteredPosts
      filteredPosts.map (mapForced (jsToLower category) now)
    else
      let matchingTags := (fallbackCategoryToTags (jsToLower category)).getD [jsToLower category]
      let filteredPosts := data.posts.filter (tagMatch matchingTags)
      if filteredPosts.length = 0 then
        (data.posts.take 6).map (mapForced (jsToLower category) now)
      else
        filteredPosts.map (mapForced (jsToLower category) now)

/-- `searchExternalPosts(query)`. -/
def searchExternalPosts (o : FetchOutcome) (now : Nat) : List Post :=
  match runFetchPosts o with
  | .error _ => []
  | .ok data => data.posts.map (fun p => mapExternalPostToSchema p now)

/-! ## Client aggregation pipeline (`HomePage`, auth page) -/

/-- Concatenation `[...internalPosts, ...externalPosts]`. -/
def combinedPosts (internalPosts externalPosts : List Post) : List Post :=
  internalPosts ++ externalPosts

/-- Stage 1: `posts.filter(post => post.category?.toLowerCase() === selectedCategory)`
when the selected category is not `"all"`. -/
def categoryFilterStage (selectedCategory : String) (posts : List Post) : List Post :=
  if selectedCategory ≠ "all" then
    posts.filter (fun post =>
      match post.category with
      | some c => jsToLower c = selectedCategory
      | none => false)
  else posts

/-- Stage 2: filter by the search query when it is non-empty. -/
def searchFilterStage (searchQuery : String) (posts : List Post) : List Post :=
  if searchQuery ≠ "" then
    let query := jsToLower searchQuery
    posts.filter (fun post =>
      jsIncludes (jsToLower post.title) query ||
      jsIncludes (jsToLower post.content) query ||
      (match post.tags with
       | some t => jsIncludes (jsToLower t) query
       | none => false))
  else posts

/-- Sort key of the `latest` / `oldest` comparators:
`new Date(post.createdAt || 0).getTime()` — a missing timestamp counts as
epoch 0. -/
def sortKeyTime (post : Post) : Nat := post.createdAt.getD 0

/-- Stage 3: `[...posts].sort(comparator)`, a stable sort.  Each comparator
`cmp` of the source induces the total preorder `cmp(a, b) ≤ 0`; a stable
sort's output is determined by that preorder, modelled by insertion sort.
`localeCompare` is modelled as code-point lexicographic comparison. -/
def sortStage (sortBy : String) (posts : List Post) : List Post :=
  if sortBy = "oldest" then
    posts.insertionSort (fun a b => sortKeyTime a ≤ sortKeyTime b)
  else if sortBy = "title_asc" then
    posts.insertionSort (fun a b => lexLeCh a.title.data b.title.data = true)
  else if sortBy = "title_desc" then
    posts.insertionSort (fun a b => lexLeCh b.title.data a.title.data = true)
  else
    posts.insertionSort (fun a b => sortKeyTime b ≤ sortKeyTime a)

/-- The full filter/sort pipeline of `HomePage` (the RxJS `map` stages,
applied in their order). -/
def aggregationPipeline (posts : List Post) (selectedCategory searchQuery sortBy : String) :
    List Post :=
  sortStage sortBy (searchFilterStage searchQuery (categoryFilterStage selectedCategory posts))

/-! ## Lemmas about the `Map` model -/

theorem mapGet_mapSet {α : Type} (m : List (Nat × α)) (k i : Nat) (v : α) :
    mapGet (mapSet m k v) i = if i = k then some v else mapGet m i := by
  induction m with
  | nil =>
    by_cases h : i = k
    · simp [mapSet, mapGet, h]
    · have h' : ¬ k = i := fun hh => h hh.symm
      simp [mapSet, mapGet, h, h']
  | cons e t ih =>
    by_cases hek : e.1 = k
    · by_cases hik : i = k
      · subst hik
        simp [mapSet, mapGet, hek]
      · have hki : ¬ k = i := fun hh => hik hh.symm
        have hei : ¬ e.1 = i := fun hh => hik (hh.symm.trans hek)
        simp [mapSet, mapGet, hek, hik, hki, hei]
    · by_cases hei : e.1 = i
      · have hik : ¬ i = k := fun h => hek (hei.trans h)
        simp [mapSet, mapGet, hek, hei, hik]
      · simp [mapSet, mapGet, hek, hei, ih]

theorem mapGet_eq_none_of_not_mem (m : List (Nat × α)) (k : Nat)
    (h : k ∉ m.map Prod.fst) : mapGet m k = none := by
  induction m with
  | nil => rfl
  | cons e t ih =>
    simp only [List.map_cons, List.mem_cons] at h
    push_neg at h
    have : ¬ e.1 = k := fun hh => h.1 hh.symm
    simp [mapGet, this, ih h.2]

theorem mapGet_some_mem {m : List (Nat × α)} {k : Nat} {v : α}
    (h : mapGet m k = some v) : (k, v) ∈ m := by
  induction m with
  | nil => simp [mapGet] at h
  | cons e t ih =>
    by_cases hek : e.1 = k
    · simp only [mapGet, hek, if_pos] at h
      rcases e with ⟨e1, e2⟩
      simp only at hek
      injection h with h2
      subst hek
      subst h2
      exact List.mem_cons_self _ _
    · simp only [mapGet, hek, if_neg, if_false] at h
      exact List.mem_cons_of_mem _ (ih h)

theorem mem_mapGet {m : List (Nat × α)} {k : Nat} {v : α}
    (hnd : (m.map Prod.fst).Nodup) (h : (k, v) ∈ m) : mapGet m k = some v := by
  induction m with
  | nil => simp at h
  | cons e t ih =>
    simp only [List.map_cons, List.nodup_cons] at hnd
    rcases List.mem_cons.mp h with h1 | h1
    · subst h1; simp [mapGet]
    · have hk : k ∈ t.map Prod.fst := List.mem_map.mpr ⟨(k, v), h1, rfl⟩
      have : ¬ e.1 = k := fun hh => hnd.1 (hh ▸ hk)
      simp [mapGet, this, ih hnd.2 h1]

theorem mem_mapSet {m : List (Nat × α)} {k : Nat} {v : α} {e : Nat × α}
    (h : e ∈ mapSet m k v) : e = (k, v) ∨ e ∈ m := by
  induction m with
  | nil => simp [mapSet] at h; simp [h]
  | cons f t ih =>
    by_cases hfk : f.1 = k
    · simp only [mapSet, hfk, if_pos] at h
      rcases List.mem_cons.mp h with h1 | h1
      · exact Or.inl h1
      · exact Or.inr (List.mem_cons_of_mem _ h1)
    · simp only [mapSet, hfk, if_neg, if_false] at h
      rcases List.mem_cons.mp h with h1 | h1
      · exact Or.inr (h1 ▸ List.mem_cons_self _ _)
      · rcases ih h1 with h2 | h2
        · exact Or.inl h2
        · exact Or.inr (List.mem_cons_of_mem _ h2)

theorem keys_mapSet_of_not_mem {m : List (Nat × α)} {k : Nat} (v : α)
    (h : k ∉ m.map Prod.fst) :
    (mapSet m k v).map Prod.fst = m.map Prod.fst ++ [k] := by
  induction m with
  | nil => simp [mapSet]
  | cons e t ih =>
    simp only [List.map_cons, List.mem_cons] at h
    push_neg at h
    have : ¬ e.1 = k := fun hh => h.1 hh.symm
    simp [mapSet, this, ih h.2]

theorem keys_mapSet_of_mem {m : List (Nat × α)} {k : Nat} (v : α)
    (h : k ∈ m.map Prod.fst) :
    (mapSet m k v).map Prod.fst = m.map Prod.fst := by
  induction m with
  | nil => simp at h
  | cons e t ih =>
    by_cases hek : e.1 = k
    · simp [mapSet, hek]
    · simp only [List.map_cons, List.mem_cons] at h
      rcases h with h1 | h1
      · exact absurd h1.symm hek
      · simp [mapSet, hek, ih h1]

theorem mapDelete_sublist (m : List (Nat × α)) (k : Nat) :
    (mapDelete m k).Sublist m := by
  induction m with
  | nil => simp [mapDelete]
  | cons e t ih =>
    by_cases hek : e.1 = k
    · simp only [mapDelete, hek, if_true, if_pos]
      exact List.sublist_cons_self e t
    · simp only [mapDelete, hek, if_false, if_neg, not_false_iff]
      exact List.Sublist.cons₂ e ih

theorem mapGet_mapDelete {m : List (Nat × α)} (k i : Nat)
    (hnd : (m.map Prod.fst).Nodup) :
    mapGet (mapDelete m k) i = if i = k then none else mapGet m i := by
  induction m with
  | nil => simp [mapDelete, mapGet]
  | cons e t ih =>
    simp only [List.map_cons, List.nodup_cons] at hnd
    by_cases hek : e.1 = k
    · by_cases hik : i = k
      · subst hik
        have : i ∉ t.map Prod.fst := hek ▸ hnd.1
        simp [mapDelete, hek, mapGet_eq_none_of_not_mem t i this]
      · have hki : ¬ k = i := fun hh => hik hh.symm
        have : ¬ e.1 = i := fun hh => hik ((hh.symm.trans hek))
        simp [mapDelete, mapGet, hek, hik, hki, this]
    · by_cases hei : e.1 = i
      · have hik : ¬ i = k := fun hh => hek (hei.trans hh)
        simp [mapDelete, mapGet, hek, hei, hik]
      · simp [mapDelete, mapGet, hek, hei, ih hnd.2]

/-! ## Invariants of the post store -/

/-- Reachable-state invariant of `MemStorage`'s post map: keys are
distinct, each stored record's `id` equals its key, and every key is below
the id counter. -/
def PostStoreWF (st : PostStore) : Prop :=
  (st.posts.map Prod.fst).Nodup ∧
  ∀ e ∈ st.posts, e.2.id = e.1 ∧ e.1 < st.currentPostId

theorem postStoreWF_empty : PostStoreWF emptyPostStore := by
  constructor
  · simp [emptyPostStore]
  · intro e he
    simp [emptyPostStore] at he

theorem not_mem_keys_of_wf {st : PostStore} (hwf : PostStoreWF st) :
    st.currentPostId ∉ st.posts.map Prod.fst := by
  intro hmem
  rcases List.mem_map.mp hmem with ⟨e, he, hfst⟩
  have := (hwf.2 e he).2
  omega

theorem postStoreWF_applyPostOp {st : PostStore} (hwf : PostStoreWF st) (op : PostOp) :
    PostStoreWF (applyPostOp st op) := by
  cases op with
  | create ins now =>
    have hnot := not_mem_keys_of_wf hwf
    constructor
    · show ((mapSet st.posts st.currentPostId _).map Prod.fst).Nodup
      rw [keys_mapSet_of_not_mem _ hnot]
      rw [List.nodup_append]
      exact ⟨hwf.1, List.nodup_singleton _, by
        intro a ha hb
        simp at hb
        subst hb
        exact hnot ha⟩
    · intro e he
      rcases mem_mapSet he with h1 | h1
      · subst h1
        exact ⟨rfl, Nat.lt_succ_self _⟩
      · have := hwf.2 e h1
        exact ⟨this.1, Nat.lt_succ_of_lt this.2⟩
  | update i u =>
    show PostStoreWF (updatePost st i u).2
    rw [updatePost]
    cases hg : mapGet st.posts i with
    | none => exact hwf
    | some p =>
      constructor
      · show ((mapSet st.posts i _).map Prod.fst).Nodup
        have hi : i ∈ st.posts.map Prod.fst :=
          List.mem_map.mpr ⟨(i, p), mapGet_some_mem hg, rfl⟩
        rw [keys_mapSet_of_mem _ hi]
        exact hwf.1
      · intro e he
        rcases mem_mapSet he with h1 | h1
        · subst h1
          have hp := hwf.2 (i, p) (mapGet_some_mem hg)
          exact ⟨hp.1, hp.2⟩
        · exact hwf.2 e h1
  | delete i =>
    constructor
    · show ((mapDelete st.posts i).map Prod.fst).Nodup
      exact ((mapDelete_sublist st.posts i).map Prod.fst).nodup hwf.1
    · intro e he
      exact hwf.2 e ((mapDelete_sublist st.posts i).mem he)

theorem postStoreWF_runPostOps (ops : List PostOp) :
    ∀ st, PostStoreWF st → PostStoreWF (runPostOps st ops) := by
  induction ops with
  | nil => intro st h; exact h
  | cons op rest ih =>
    intro st h
    exact ih _ (postStoreWF_applyPostOp h op)

/-- Simulation lemma: after running `ops` from a well-formed state, the
record stored at id `i` is exactly what the per-id specification interpreter
predicts. -/
theorem mapGet_runPostOps (ops : List PostOp) :
    ∀ st, PostStoreWF st → ∀ i,
      mapGet (runPostOps st ops).posts i
        = specPostAt i ops st.currentPostId (mapGet st.posts i) := by
  induction ops with
  | nil => intro st _ i; rfl
  | cons op rest ih =>
    intro st hwf i
    have hwf' := postStoreWF_applyPostOp hwf op
    have hrun : runPostOps st (op :: rest) = runPostOps (applyPostOp st op) rest := rfl
    rw [hrun, ih _ hwf' i]
    cases op with
    | create ins now =>
      show specPostAt i rest (st.currentPostId + 1)
          (mapGet (mapSet st.posts st.currentPostId (mkPost st.currentPostId ins now)) i)
        = specPostAt i rest (st.currentPostId + 1)
          (if i = st.currentPostId then some (mkPost st.currentPostId ins now)
           else mapGet st.posts i)
      rw [mapGet_mapSet]
    | update j u =>
      cases hg : mapGet st.posts j with
      | none =>
        simp only [applyPostOp, updatePost, hg, specPostAt]
        by_cases hij : i = j
        · subst hij
          simp [hg]
        · simp [hij]
      | some p =>
        simp only [applyPostOp, updatePost, hg, specPostAt]
        rw [mapGet_mapSet]
        by_cases hij : i = j
        · subst hij
          simp [hg]
        · simp [hij]
    | delete j =>
      show specPostAt i rest st.currentPostId (mapGet (mapDelete st.posts j) i)
        = specPostAt i rest st.currentPostId
          (if i = j then none else mapGet st.posts i)
      rw [mapGet_mapDelete _ _ hwf.1]

/-- Membership in `getAllPosts` of a well-formed store is lookup at the
post's own id. -/
theorem mem_getAllPosts_iff {st : PostStore} (hwf : PostStoreWF st) (p : Post) :
    p ∈ getAllPosts st ↔ mapGet st.posts p.id = some p := by
  constructor
  · intro h
    rcases List.mem_map.mp h with ⟨e, he, hsnd⟩
    have hid := (hwf.2 e he).1
    have : e = (p.id, p) := by
      rcases e with ⟨k, q⟩
      simp only at hsnd hid
      subst hsnd
      subst hid
      rfl
    exact mem_mapGet hwf.1 (this ▸ he)
  · intro h
    exact List.mem_map.mpr ⟨(p.id, p), mapGet_some_mem h, rfl⟩

/-! ## Claim C1 -/

/-- C1: For every finite sequence of createPost/updatePost/deletePost
operations starting from an empty post store, `getAllPosts()` afterwards
returns exactly the posts that were created and not subsequently deleted,
each equal to its created record shallow-merged with its updates in order
(`specPostAt` is the claim's per-id account: the created record, merged
with each later update addressed to it, erased by a delete). -/
theorem getAllPosts_runPostOps_spec (ops : List PostOp) (p : Post) :
    p ∈ getAllPosts (runPostOps emptyPostStore ops) ↔ specPostAt p.id ops 1 none = some p := by
  have hwf := postStoreWF_runPostOps ops emptyPostStore postStoreWF_empty
  rw [mem_getAllPosts_iff hwf, mapGet_runPostOps ops emptyPostStore postStoreWF_empty p.id]
  rfl

/-! ## Claim C2 -/

/-- C2: For every stored post and every partial update record,
`updatePost(id, partial)` returns and stores the shallow merge, whose `id`
and `createdAt` fields equal their prior values (the partial, of type
`Partial<InsertPost>`, has no `id`/`createdAt` keys); every provided field
overwrites, every omitted field is retained. -/
theorem updatePost_frame (st : PostStore) (i : Nat) (u : PostUpdate) (p : Post)
    (h : getPost st i = some p) :
    (updatePost st i u).1 = some (mergePost p u) ∧
    getPost (updatePost st i u).2 i = some (mergePost p u) ∧
    (mergePost p u).id = p.id ∧
    (mergePost p u).createdAt = p.createdAt ∧
    (∀ s, u.title = some s → (mergePost p u).title = s) ∧
    (u.title = none → (mergePost p u).title = p.title) ∧
    (∀ s, u.content = some s → (mergePost p u).content = s) ∧
    (u.content = none → (mergePost p u).content = p.content) ∧
    (∀ s, u.imageUrl = some s → (mergePost p u).imageUrl = s) ∧
    (u.imageUrl = none → (mergePost p u).imageUrl = p.imageUrl) ∧
    (∀ s, u.category = some s → (mergePost p u).category = s) ∧
    (u.category = none → (mergePost p u).category = p.category) ∧
    (∀ s, u.tags = some s → (mergePost p u).tags = s) ∧
    (u.tags = none → (mergePost p u).tags = p.tags) ∧
    (∀ s, u.authorId = some s → (mergePost p u).authorId = s) ∧
    (u.authorId = none → (mergePost p u).authorId = p.authorId) ∧
    (∀ s, u.published = some s → (mergePost p u).published = s) ∧
    (u.published = none → (mergePost p u).published = p.published) := by
  rw [getPost] at h
  refine ⟨?_, ?_, rfl, rfl, ?_, ?_, ?_, ?_, ?_, ?_, ?_, ?_, ?_, ?_, ?_, ?_, ?_, ?_⟩
  · rw [updatePost, h]
  · rw [updatePost, h]
    show mapGet (mapSet st.posts i (mergePost p u)) i = some (mergePost p u)
    rw [mapGet_mapSet, if_pos rfl]
  all_goals first
    | (intro s hs; simp [mergePost, hs])
    | (intro h0; simp [mergePost, h0])

/-- Demonstration inputs for the witnesses. -/
def demoInsert : InsertPost :=
  { title := "Hello", content := "World", imageUrl := none,
    category := some "Tech", tags := some "a,b", authorId := some 1,
    published := some true }

/-- Demonstration partial update: provides `title` and sets `tags` to null,
omits everything else. -/
def demoUpdate : PostUpdate :=
  { title := some "Updated", tags := some none }

theorem updatePost_frame_witness :
    (updatePost (createPost emptyPostStore demoInsert 5).2 1 demoUpdate).1
      = some (mergePost (mkPost 1 demoInsert 5) demoUpdate) ∧
    (mergePost (mkPost 1 demoInsert 5) demoUpdate).createdAt
      = (mkPost 1 demoInsert 5).createdAt :=
  ⟨(updatePost_frame (createPost emptyPostStore demoInsert 5).2 1 demoUpdate
      (mkPost 1 demoInsert 5) (by decide)).1,
   (updatePost_frame (createPost emptyPostStore demoInsert 5).2 1 demoUpdate
      (mkPost 1 demoInsert 5) (by decide)).2.2.2.1⟩

/-! ## Claim C3 -/

/-- C3 (code evidence): `createUser` performs no duplicate-username check.
Creating a user named `"admin"` against the seeded store (which already
holds the admin account) silently succeeds: the store ends up with two
users named `"admin"`, and the new user gets the next sequential id with
`isAdmin = false` — no `ConflictError` exists anywhere in the source. -/
theorem createUser_allows_duplicate_username :
    ((createUser initialUserStore
        { username := "admin", password := "pw", fullName := none }).2.users.map
        Prod.snd).countP (fun u => u.username == "admin") = 2 ∧
    (createUser initialUserStore
        { username := "admin", password := "pw", fullName := none }).1.id = 2 ∧
    (createUser initialUserStore
        { username := "admin", password := "pw", fullName := none }).1.isAdmin
      = some false := by
  decide

/-! ## Claim C4 -/

/-- Case-insensitive substring occurrence, written from the claim: `q`
occurs in `s` after lowercasing both. -/
def ciSubstring (q s : String) : Bool :=
  containsSub (jsToLower s).data (jsToLower q).data

theorem containsSub_nil_pat (l : List Char) : containsSub l [] = true := by
  cases l <;> rfl

/-- C4: `searchPosts(q)` returns exactly the posts for which `q` is a
case-insensitive substring of the title, the content, or the tags string;
and `searchPosts("")` returns all posts. -/
theorem searchPosts_spec (st : PostStore) (q : String) :
    searchPosts st q = (getAllPosts st).filter (fun p =>
      ciSubstring q p.title || ciSubstring q p.content ||
      (match p.tags with
       | some t => ciSubstring q t
       | none => false)) ∧
    searchPosts st "" = getAllPosts st := by
  constructor
  · rfl
  · simp only [searchPosts, getAllPosts]
    apply List.filter_eq_self.mpr
    intro p _
    have h1 : jsIncludes (jsToLower p.title) (jsToLower "") = true := containsSub_nil_pat _
    simp [h1]

/-! ## Claim C6 -/

/-- C6 as stated: the mapped post's fields, with `category` equal to the
first tag whenever the tag list is non-empty (and `"Uncategorized"` only
when it is empty). -/
def c6Statement : Prop :=
  ∀ (e : ExternalBlogPost) (now : Nat),
    (mapExternalPostToSchema e now).content = e.body ∧
    (mapExternalPostToSchema e now).authorId = some e.userId ∧
    (mapExternalPostToSchema e now).category
      = some (match e.tags.head? with
              | some t => t
              | none => "Uncategorized") ∧
    (mapExternalPostToSchema e now).tags = some (String.intercalate "," e.tags) ∧
    containsSub ((mapExternalPostToSchema e now).imageUrl.getD "").data
      (toString e.id).data = true ∧
    (mapExternalPostToSchema e now).published = some true

/-- C6 counterexample: for the external post with tag list `[""]` the first
tag is the empty string, which is falsy, so `post.tags[0] || 'Uncategorized'`
yields `"Uncategorized"`, not the first tag. -/
theorem c6Statement_false : ¬ c6Statement := by
  intro h
  have hc := (h { id := 1, title := "T", body := "B", userId := 1,
                  tags := [""], reactions := 0 } 0).2.2.1
  exact absurd hc (by decide)

theorem headOccurs_append (pat l : List Char) : headOccurs pat (pat ++ l) = true := by
  induction pat with
  | nil => rfl
  | cons a as ih => simp [headOccurs, ih]

theorem containsSub_append_self (pre pat suf : List Char) :
    containsSub (pre ++ (pat ++ suf)) pat = true := by
  induction pre with
  | nil =>
    cases pat with
    | nil => exact containsSub_nil_pat _
    | cons a as =>
      show (headOccurs (a :: as) (a :: (as ++ suf)) || containsSub (as ++ suf) (a :: as)) = true
      have h1 : headOccurs (a :: as) (a :: (as ++ suf)) = true := by
        simp [headOccurs, headOccurs_append]
      rw [h1, Bool.true_or]
  | cons b pre ih => simp [containsSub, ih]

/-- C6 amended: as the claim, except that `category` falls back to
`"Uncategorized"` also when the first tag is the empty string (the source
uses the falsy-`||` idiom, and `""` is falsy). -/
theorem mapExternalPostToSchema_spec (e : ExternalBlogPost) (now : Nat) :
    (mapExternalPostToSchema e now).content = e.body ∧
    (mapExternalPostToSchema e now).authorId = some e.userId ∧
    (mapExternalPostToSchema e now).category
      = some (match e.tags.head? with
              | some t => if t = "" then "Uncategorized" else t
              | none => "Uncategorized") ∧
    (mapExternalPostToSchema e now).tags = some (String.intercalate "," e.tags) ∧
    containsSub ((mapExternalPostToSchema e now).imageUrl.getD "").data
      (toString e.id).data = true ∧
    (mapExternalPostToSchema e now).published = some true := by
  refine ⟨rfl, rfl, ?_, rfl, ?_, rfl⟩
  · obtain ⟨eid, etitle, ebody, euid, etags, ereact⟩ := e
    cases etags with
    | nil => rfl
    | cons t ts => rfl
  · show containsSub
      (("https://picsum.photos/seed/" ++ toString e.id ++ "/800/500") : String).data
      (toString e.id).data = true
    rw [String.data_append, String.data_append, List.append_assoc]
    exact containsSub_append_self _ _ _

/-! ## Claim C9 -/

/-- C9: every failure of the fetch/parse step — network error, non-ok
response, malformed payload — makes `fetchExternalPosts`,
`fetchExternalPostsByCategory` and `searchExternalPosts` return the empty
sequence instead of propagating the error. -/
theorem external_fetch_failure_yields_empty (msg : String) (now : Nat) (category : String)
    (b : Bool) (body : Except String ExternalApiResponse) :
    fetchExternalPosts (.netError msg) now = [] ∧
    fetchExternalPosts (.response false body) now = [] ∧
    fetchExternalPosts (.response b (.error msg)) now = [] ∧
    fetchExternalPostsByCategory category (.netError msg) now = [] ∧
    fetchExternalPostsByCategory category (.response false body) now = [] ∧
    fetchExternalPostsByCategory category (.response b (.error msg)) now = [] ∧
    searchExternalPosts (.netError msg) now = [] ∧
    searchExternalPosts (.response false body) now = [] ∧
    searchExternalPosts (.response b (.error msg)) now = [] := by
  refine ⟨rfl, rfl, ?_, rfl, rfl, ?_, rfl, rfl, ?_⟩ <;> cases b <;> rfl

/-! ## Claim C10 -/

/-- Demonstration external post sharing id 1 with the first locally
created post. -/
def demoExternal : ExternalBlogPost :=
  { id := 1, title := "Ext", body := "B", userId := 3,
    tags := ["tech", "x"], reactions := 5 }

/-- C10: `mapExternalPostToSchema` keeps the external id unchanged, so the
combined local-plus-external sequence can hold two distinct posts with the
same id: concretely, one local `createPost` plus the mapped external post
with id 1 yield a combined list of two unequal posts both carrying id 1. -/
theorem mapped_external_id_collides :
    (∀ (e : ExternalBlogPost) (now : Nat), (mapExternalPostToSchema e now).id = e.id) ∧
    (combinedPosts (getAllPosts (createPost emptyPostStore demoInsert 5).2)
        [mapExternalPostToSchema demoExternal 7]).map Post.id = [1, 1] ∧
    (combinedPosts (getAllPosts (createPost emptyPostStore demoInsert 5).2)
        [mapExternalPostToSchema demoExternal 7]).Nodup := by
  refine ⟨fun e now => rfl, ?_, ?_⟩ <;> decide

/-! ## Claim C7 -/

/-- Source post qualifying for the technology heuristic (tag `"tech"`). -/
def extTech : ExternalBlogPost :=
  { id := 1, title := "t", body := "b", userId := 1, tags := ["tech"], reactions := 0 }

/-- Source post matching no technology tag keyword and no content keyword. -/
def extPlain : ExternalBlogPost :=
  { id := 2, title := "t", body := "b", userId := 1, tags := ["zzz"], reactions := 0 }

/-- A fetched source set where exactly one post qualifies for
`"technology"`. -/
def demoKeywordResponse : ExternalApiResponse :=
  { posts := [extTech, extPlain], total := 2, skip := 0, limit := 100 }

/-- C7 (code evidence): with one qualifying post among two, the padding
step re-adds the already-included post — the returned ids are `[1, 1, 2]`,
so the qualifying post with id 1 appears twice.  The exclusion filter
`!filteredPosts.includes(post)` compares source objects against freshly
re-mapped objects by reference and therefore never excludes anything.  The
"every post carries the requested category" half does hold. -/
theorem fetchByCategory_padding_readds_included :
    (fetchExternalPostsByCategory "technology"
        (.response true (.ok demoKeywordResponse)) 0).map Post.id = [1, 1, 2] ∧
    ((fetchExternalPostsByCategory "technology"
        (.response true (.ok demoKeywordResponse)) 0).map Post.category).all
      (fun c => c == some "technology") = true := by
  constructor <;> decide

/-! ## Claim C8 -/

/-- C8 as stated: in the fallback branch, a source post qualifies iff one
of its tags equals the category (exact equality); with no qualifying post
the call returns exactly 6 posts. -/
def c8Statement : Prop :=
  ∀ (category : String) (data : ExternalApiResponse) (now : Nat),
    jsToLower category ∉ keywordCategoryList →
    category ≠ "all" →
    fallbackCategoryToTags (jsToLower category) = none →
    (let qualifying := data.posts.filter (fun p => p.tags.any (fun t => t == category))
     if qualifying.isEmpty then
       (fetchExternalPostsByCategory category (.response true (.ok data)) now).length = 6 ∧
       fetchExternalPostsByCategory category (.response true (.ok data)) now ≠ []
     else
       fetchExternalPostsByCategory category (.response true (.ok data)) now
         = qualifying.map (mapForced (jsToLower category) now))

/-- A single source post whose only tag is `"artist"`. -/
def demoFallbackResponse : ExternalApiResponse :=
  { posts := [{ id := 1, title := "t", body := "b", userId := 1,
                tags := ["artist"], reactions := 0 }],
    total := 1, skip := 0, limit := 100 }

/-- C8 counterexample: for category `"art"` no tag equals the category, yet
the call returns the one post whose tag `"artist"` merely contains `"art"`
as a substring — matching is substring-based, not exact equality, and the
6-post substitution never happens. -/
theorem c8Statement_false : ¬ c8Statement := by
  intro h
  have hc := h "art" demoFallbackResponse 0 (by decide) (by decide) (by decide)
  exact absurd hc (by decide)


/-- Keyword list of the fallback branch: the `'writing'` entry of its
`categoryToTags`, else the singleton lowercased category. -/
def fallbackKeywords (category : String) : List String :=
  (fallbackCategoryToTags (jsToLower category)).getD [jsToLower category]

/-- The posts the fallback branch selects: a post qualifies iff one of its
tags contains (case-insensitive substring) one of the keywords. -/
def fallbackQualifying (category : String) (data : ExternalApiResponse) :
    List ExternalBlogPost :=
  data.posts.filter (tagMatch (fallbackKeywords category))

theorem fetchByCategory_fallback_unfold (category : String) (data : ExternalApiResponse)
    (now : Nat) (h1 : jsToLower category ∉ keywordCategoryList) (h2 : category ≠ "all") :
    fetchExternalPostsByCategory category (.response true (.ok data)) now
      = (if (fallbackQualifying category data).length = 0 then
           (data.posts.take 6).map (mapForced (jsToLower category) now)
         else
           (fallbackQualifying category data).map (mapForced (jsToLower category) now)) := by
  simp only [fetchExternalPostsByCategory, runFetchPosts, if_pos, if_neg h2, if_neg h1]
  rfl

/-- C8 amended: in the fallback branch a source post qualifies iff one of
its tags contains a fallback keyword as a case-insensitive substring (the
keywords being the fixed `'writing'` list for that category and the
lowercased category itself otherwise); with no qualifying post the call
returns the first `min(6, |source|)` posts; every returned post is
force-tagged with the category, and the result is non-empty whenever the
fetched source set is. -/
theorem fetchByCategory_fallback_spec (category : String) (data : ExternalApiResponse)
    (now : Nat) (h1 : jsToLower category ∉ keywordCategoryList) (h2 : category ≠ "all") :
    (if (fallbackQualifying category data).isEmpty then
       fetchExternalPostsByCategory category (.response true (.ok data)) now
         = (data.posts.take 6).map (mapForced (jsToLower category) now)
     else
       fetchExternalPostsByCategory category (.response true (.ok data)) now
         = (fallbackQualifying category data).map (mapForced (jsToLower category) now)) ∧
    ((fetchExternalPostsByCategory category (.response true (.ok data)) now).all
       (fun p => p.category == some (jsToLower category)) = true) ∧
    (data.posts ≠ [] →
      fetchExternalPostsByCategory category (.response true (.ok data)) now ≠ []) := by
  rw [fetchByCategory_fallback_unfold category data now h1 h2]
  by_cases hq : (fallbackQualifying category data).isEmpty
  · have hnil : fallbackQualifying category data = [] := List.isEmpty_iff.mp hq
    rw [hnil]
    have e2 : (([] : List ExternalBlogPost)).length = 0 := rfl
    have e1 : (([] : List ExternalBlogPost)).isEmpty = true := rfl
    rw [if_pos e2, if_pos e1]
    refine ⟨rfl, ?_, ?_⟩
    · rw [List.all_eq_true]
      intro p hp
      rcases List.mem_map.mp hp with ⟨e, _, he⟩
      subst he
      simp [mapForced]
    · intro hne hmap
      rw [List.map_eq_nil_iff] at hmap
      cases hd : data.posts with
      | nil => exact hne hd
      | cons a l =>
        rw [hd] at hmap
        simp at hmap
  · have hlen : ¬ (fallbackQualifying category data).length = 0 := by
      intro h0
      exact hq (List.isEmpty_iff.mpr (List.length_eq_zero.mp h0))
    rw [if_neg hq, if_neg hlen]
    refine ⟨rfl, ?_, ?_⟩
    · rw [List.all_eq_true]
      intro p hp
      rcases List.mem_map.mp hp with ⟨e, _, he⟩
      subst he
      simp [mapForced]
    · intro _
      intro hmap
      rw [List.map_eq_nil_iff] at hmap
      exact hq (List.isEmpty_iff.mpr hmap)

theorem fetchByCategory_fallback_spec_witness :
    fetchExternalPostsByCategory "art" (.response true (.ok demoFallbackResponse)) 0 ≠ [] :=
  (fetchByCategory_fallback_spec "art" demoFallbackResponse 0
    (by decide) (by decide)).2.2 (by decide)

/-! ## Order properties of the `localeCompare` model -/

theorem char_toNat_inj {a b : Char} (h : a.toNat = b.toNat) : a = b :=
  Char.ext (UInt32.ext h)

theorem lexLeCh_total : ∀ x y : List Char, lexLeCh x y = true ∨ lexLeCh y x = true := by
  intro x
  induction x with
  | nil => intro y; exact Or.inl rfl
  | cons a as ih =>
    intro y
    cases y with
    | nil => exact Or.inr rfl
    | cons b bs =>
      by_cases hab : a = b
      · subst hab
        rcases ih bs with h | h
        · exact Or.inl (by simp [lexLeCh, h])
        · exact Or.inr (by simp [lexLeCh, h])
      · have hba : ¬ b = a := fun h => hab h.symm
        have hne : a.toNat ≠ b.toNat := fun h => hab (char_toNat_inj h)
        rcases Nat.lt_or_ge a.toNat b.toNat with h | h
        · exact Or.inl (by simp [lexLeCh, hab, h])
        · have h' : b.toNat < a.toNat := lt_of_le_of_ne h (fun hh => hne hh.symm)
          exact Or.inr (by simp [lexLeCh, hba, h'])

theorem lexLeCh_trans :
    ∀ x y z : List Char, lexLeCh x y = true → lexLeCh y z = true → lexLeCh x z = true := by
  intro x
  induction x with
  | nil => intro y z _ _; rfl
  | cons a as ih =>
    intro y z hxy hyz
    cases y with
    | nil => simp [lexLeCh] at hxy
    | cons b bs =>
      cases z with
      | nil => simp [lexLeCh] at hyz
      | cons c cs =>
        by_cases hab : a = b <;> by_cases hbc : b = c
        · subst hab; subst hbc
          simp only [lexLeCh, if_pos rfl] at hxy hyz ⊢
          exact ih bs cs hxy hyz
        · subst hab
          simp only [lexLeCh, if_neg hbc] at hyz
          simp only [lexLeCh, if_neg hbc]
          exact hyz
        · subst hbc
          simp only [lexLeCh, if_neg hab] at hxy
          simp only [lexLeCh, if_neg hab]
          exact hxy
        · simp only [lexLeCh, if_neg hab] at hxy
          simp only [lexLeCh, if_neg hbc] at hyz
          have h1 : a.toNat < b.toNat := of_decide_eq_true hxy
          have h2 : b.toNat < c.toNat := of_decide_eq_true hyz
          have hac : ¬ a = c := by
            intro h
            subst h
            exact absurd (Nat.lt_trans h1 h2) (lt_irrefl _)
          simp only [lexLeCh, if_neg hac]
          exact decide_eq_true (Nat.lt_trans h1 h2)

theorem lexLeCh_antisymm :
    ∀ x y : List Char, lexLeCh x y = true → lexLeCh y x = true → x = y := by
  intro x
  induction x with
  | nil =>
    intro y _ hyx
    cases y with
    | nil => rfl
    | cons b bs => simp [lexLeCh] at hyx
  | cons a as ih =>
    intro y hxy hyx
    cases y with
    | nil => simp [lexLeCh] at hxy
    | cons b bs =>
      by_cases hab : a = b
      · subst hab
        simp only [lexLeCh, if_pos rfl] at hxy hyx
        rw [ih bs hxy hyx]
      · have hba : ¬ b = a := fun h => hab h.symm
        simp only [lexLeCh, if_neg hab] at hxy
        simp only [lexLeCh, if_neg hba] at hyx
        have h1 : a.toNat < b.toNat := of_decide_eq_true hxy
        have h2 : b.toNat < a.toNat := of_decide_eq_true hyx
        exact absurd (Nat.lt_trans h1 h2) (lt_irrefl _)

/-! ## Reversal property of stable sorting under a key -/

/-- Sorting by the flipped comparator reverses the sorted order whenever the
sort keys of the input are pairwise distinct. -/
theorem insertionSort_key_reverse {α β : Type} (k : α → β) (leB : β → β → Prop)
    [DecidableRel leB]
    (htot : ∀ x y, leB x y ∨ leB y x)
    (htrans : ∀ x y z, leB x y → leB y z → leB x z)
    (hanti : ∀ x y, leB x y → leB y x → x = y)
    (l : List α) (hne : l.Pairwise fun a b => k a ≠ k b) :
    List.insertionSort (fun a b => leB (k b) (k a)) l
      = (List.insertionSort (fun a b => leB (k a) (k b)) l).reverse := by
  haveI t1 : IsTotal α (fun a b => leB (k a) (k b)) := ⟨fun a b => htot _ _⟩
  haveI t2 : IsTotal α (fun a b => leB (k b) (k a)) := ⟨fun a b => htot _ _⟩
  haveI tr1 : IsTrans α (fun a b => leB (k a) (k b)) :=
    ⟨fun _ _ _ h1 h2 => htrans _ _ _ h1 h2⟩
  haveI tr2 : IsTrans α (fun a b => leB (k b) (k a)) :=
    ⟨fun _ _ _ h1 h2 => htrans _ _ _ h2 h1⟩
  have hpermL : (List.insertionSort (fun a b => leB (k a) (k b)) l).Perm l :=
    List.perm_insertionSort _ l
  have hpermR : (List.insertionSort (fun a b => leB (k b) (k a)) l).Perm l :=
    List.perm_insertionSort _ l
  have hsortL : List.Sorted (fun a b => leB (k a) (k b))
      (List.insertionSort (fun a b => leB (k a) (k b)) l) :=
    List.sorted_insertionSort _ l
  have hsortR : List.Sorted (fun a b => leB (k b) (k a))
      (List.insertionSort (fun a b => leB (k b) (k a)) l) :=
    List.sorted_insertionSort _ l
  have hsymm : ∀ {x y : α}, k x ≠ k y → k y ≠ k x := fun h => Ne.symm h
  have hneL : (List.insertionSort (fun a b => leB (k a) (k b)) l).Pairwise
      (fun a b => k a ≠ k b) := (hpermL.pairwise_iff hsymm).mpr hne
  have hneR : (List.insertionSort (fun a b => leB (k b) (k a)) l).Pairwise
      (fun a b => k a ≠ k b) := (hpermR.pairwise_iff hsymm).mpr hne
  haveI : IsAntisymm α (fun a b => leB (k b) (k a) ∧ k a ≠ k b) :=
    ⟨fun a b h1 h2 => absurd (hanti _ _ h1.1 h2.1) (Ne.symm h1.2)⟩
  have hsortR' : List.Sorted (fun a b => leB (k b) (k a) ∧ k a ≠ k b)
      (List.insertionSort (fun a b => leB (k b) (k a)) l) :=
    hsortR.and hneR
  have hrevL : List.Sorted (fun a b => leB (k b) (k a) ∧ k a ≠ k b)
      (List.insertionSort (fun a b => leB (k a) (k b)) l).reverse := by
    apply List.pairwise_reverse.mpr
    exact (hsortL.and hneL).imp (fun h => ⟨h.1, Ne.symm h.2⟩)
  have hperm : (List.insertionSort (fun a b => leB (k b) (k a)) l).Perm
      (List.insertionSort (fun a b => leB (k a) (k b)) l).reverse :=
    hpermR.trans (hpermL.symm.trans (List.reverse_perm _).symm)
  exact List.eq_of_perm_of_sorted hperm hsortR' hrevL

/-! ## Claim C5 -/

theorem stringDataInjective {s t : String} (h : s.data = t.data) : s = t := by
  cases s
  cases t
  exact congrArg String.mk h

theorem categoryFilterStage_sublist (c : String) (l : List Post) :
    (categoryFilterStage c l).Sublist l := by
  rw [categoryFilterStage]
  split
  · exact List.filter_sublist l
  · exact List.Sublist.refl l

theorem searchFilterStage_sublist (q : String) (l : List Post) :
    (searchFilterStage q l).Sublist l := by
  rw [searchFilterStage]
  split
  · exact List.filter_sublist l
  · exact List.Sublist.refl l

theorem sortStage_latest (l : List Post) :
    sortStage "latest" l = l.insertionSort (fun a b => sortKeyTime b ≤ sortKeyTime a) := rfl

theorem sortStage_oldest (l : List Post) :
    sortStage "oldest" l = l.insertionSort (fun a b => sortKeyTime a ≤ sortKeyTime b) := rfl

theorem sortStage_title_asc (l : List Post) :
    sortStage "title_asc" l
      = l.insertionSort (fun a b => lexLeCh a.title.data b.title.data = true) := rfl

theorem sortStage_title_desc (l : List Post) :
    sortStage "title_desc" l
      = l.insertionSort (fun a b => lexLeCh b.title.data a.title.data = true) := rfl

/-- C5 as stated: with category and search filters fixed, `latest` output
is the reverse of `oldest` output when no two posts share an (effective)
`createdAt` value, and `title_asc` output is the reverse of `title_desc`
output unconditionally. -/
def c5Statement : Prop :=
  ∀ (posts : List Post) (selectedCategory searchQuery : String),
    ((posts.Pairwise fun a b => sortKeyTime a ≠ sortKeyTime b) →
      aggregationPipeline posts selectedCategory searchQuery "latest"
        = (aggregationPipeline posts selectedCategory searchQuery "oldest").reverse) ∧
    (aggregationPipeline posts selectedCategory searchQuery "title_asc"
      = (aggregationPipeline posts selectedCategory searchQuery "title_desc").reverse)

/-- Two posts sharing the title `"Same"` but nothing else. -/
def postX : Post :=
  { id := 1, title := "Same", content := "c1", imageUrl := none, category := none,
    tags := none, createdAt := some 1, authorId := none, published := some true }

/-- Second post titled `"Same"`. -/
def postY : Post :=
  { id := 2, title := "Same", content := "c2", imageUrl := none, category := none,
    tags := none, createdAt := some 2, authorId := none, published := some true }

/-- C5 counterexample: on two posts with equal titles the stable sort keeps
the original order under both `title_asc` and `title_desc` (the comparator
ties), so the two outputs are equal, not reversed. -/
theorem c5Statement_false : ¬ c5Statement := by
  intro h
  have hc := (h [postX, postY] "all" "").2
  exact absurd hc (by decide)

/-- C5 amended: `latest` and `oldest` outputs are exact reverses whenever
the effective `createdAt` keys (missing timestamp counts as epoch 0) of the
input posts are pairwise distinct, and `title_asc` and `title_desc` outputs
are exact reverses whenever the titles are pairwise distinct. -/
theorem pipeline_sort_mirror (posts : List Post) (selectedCategory searchQuery : String) :
    ((posts.Pairwise fun a b => sortKeyTime a ≠ sortKeyTime b) →
      aggregationPipeline posts selectedCategory searchQuery "latest"
        = (aggregationPipeline posts selectedCategory searchQuery "oldest").reverse) ∧
    ((posts.Pairwise fun a b => a.title ≠ b.title) →
      aggregationPipeline posts selectedCategory searchQuery "title_asc"
        = (aggregationPipeline posts selectedCategory searchQuery "title_desc").reverse) := by
  have hsub : (searchFilterStage searchQuery
      (categoryFilterStage selectedCategory posts)).Sublist posts :=
    (searchFilterStage_sublist _ _).trans (categoryFilterStage_sublist _ _)
  constructor
  · intro hne
    have hne' := List.Pairwise.sublist hsub hne
    show sortStage "latest" _ = (sortStage "oldest" _).reverse
    rw [sortStage_latest, sortStage_oldest]
    exact insertionSort_key_reverse sortKeyTime (fun x y => x ≤ y)
      (fun x y => Nat.le_total x y) (fun x y z h1 h2 => Nat.le_trans h1 h2)
      (fun x y h1 h2 => Nat.le_antisymm h1 h2) _ hne'
  · intro hne
    have hne' : (searchFilterStage searchQuery
        (categoryFilterStage selectedCategory posts)).Pairwise
        (fun a b => a.title.data ≠ b.title.data) :=
      (List.Pairwise.sublist hsub hne).imp (fun h hd => h (stringDataInjective hd))
    show sortStage "title_asc" _ = (sortStage "title_desc" _).reverse
    rw [sortStage_title_asc, sortStage_title_desc]
    have hlemma := insertionSort_key_reverse (fun p : Post => p.title.data)
      (fun x y => lexLeCh x y = true) lexLeCh_total lexLeCh_trans lexLeCh_antisymm
      _ hne'
    rw [hlemma, List.reverse_reverse]

/-- Post with a fresh title and timestamp, for the witness. -/
def postZ : Post :=
  { id := 3, title := "Other", content := "c3", imageUrl := none, category := none,
    tags := none, createdAt := some 5, authorId := none, published := some true }

theorem pipeline_sort_mirror_witness :
    aggregationPipeline [postX, postZ] "all" "" "latest"
      = (aggregationPipeline [postX, postZ] "all" "" "oldest").reverse ∧
    aggregationPipeline [postX, postZ] "all" "" "title_asc"
      = (aggregationPipeline [postX, postZ] "all" "" "title_desc").reverse :=
  ⟨(pipeline_sort_mirror [postX, postZ] "all" "").1 (by decide),
   (pipeline_sort_mirror [postX, postZ] "all" "").2 (by decide)⟩
